import Mathlib

/-!
# Verification of the brainrust virtual machine

A shallow embedding of the Brainfuck virtual machine from the `brainrust`
repository.  The embedding covers:

* `Instruction` and character decoding (`src/interpret.rs`, also duplicated in
  `src/lib.rs`);
* the `Machine` state, the jump-table construction in `Machine::new`, the
  stepping function `Machine::step` and the driver `Machine::run` from the
  `vm` module in `src/vm.rs`;
* the second, older `Machine::step` from `src/lib.rs` (`libStep` below),
  which differs from the `vm` one only in how completion and errors are
  signalled.

Cells are machine integers of a generic unsigned width `W`; they are modelled
as `Nat` with explicit `% 2 ^ W` wraparound.  The byte-stream input source is
modelled as a list of pending bytes (reading from an exhausted list yields
zero bytes, which the Rust code maps to the maximum cell value); the output
sink is the list of bytes written so far.  Since a pure list never raises an
I/O error, the `Io` error variants of the Rust code have no counterpart here.
`Machine::run` loops and is driven by explicit fuel (`runAux`).
-/

/-- The instruction set, from `Instruction` in `src/interpret.rs`
(the identical enum also appears in `src/lib.rs`). -/
inductive Instruction where
  | MoveRight
  | MoveLeft
  | Increment
  | Decrement
  | Write
  | Read
  | While
  | WhileEnd
  | Comment (c : Char)
deriving DecidableEq

/-- Character decoding, from `impl From<char> for Instruction`. -/
def Instruction.ofChar (c : Char) : Instruction :=
  if c = '>' then .MoveRight
  else if c = '<' then .MoveLeft
  else if c = '+' then .Increment
  else if c = '-' then .Decrement
  else if c = '.' then .Write
  else if c = ',' then .Read
  else if c = '[' then .While
  else if c = ']' then .WhileEnd
  else .Comment c

/-- `impl From<&str> for Program` in `src/interpret.rs`: one instruction per
source character. -/
def parseProgram (s : List Char) : List Instruction :=
  s.map Instruction.ofChar

/-- The language-level errors of the `vm` module (`vm::Error` in
`src/vm.rs`). -/
inductive VmError where
  | UnmatchedOpenBracket (i : Nat)
  | UnmatchedCloseBracket (i : Nat)
deriving DecidableEq

/-- The error type of `src/lib.rs`, whose `step` signals completion as an
error value.  The `Io` variant is not modelled (list-based I/O cannot fail). -/
inductive LibError where
  | ProgramComplete
  | UnmatchedOpenBracket (i : Nat)
  | UnmatchedCloseBracket (i : Nat)
deriving DecidableEq

/-- Machine state, from `struct Machine` in `src/vm.rs` (the struct in
`src/lib.rs` has exactly the same fields).  The two hash maps are association
lists with the most recent insertion at the head. -/
structure Machine where
  program : List Instruction
  instruction_ptr : Nat
  memory : List Nat
  data_ptr : Nat
  open_to_close : List (Nat × Nat)
  close_to_open : List (Nat × Nat)
  input : List Nat
  output : List Nat
deriving DecidableEq

/-- Association-list lookup; the head is the most recent insertion, matching
`HashMap::insert` overwrite semantics. -/
def assoc : List (Nat × Nat) → Nat → Option Nat
  | [], _ => none
  | (k, v) :: rest, j => if k = j then some v else assoc rest j

/-- The single left-to-right bracket-matching pass of `Machine::new`
(`src/vm.rs` lines 59-73): a stack of pending `While` positions; each
`WhileEnd` pops and records the pair in both tables; an unmatched `WhileEnd`
is silently skipped. -/
def buildLoop :
    List Instruction → Nat → List Nat →
    List (Nat × Nat) × List (Nat × Nat) → List (Nat × Nat) × List (Nat × Nat)
  | [], _, _, acc => acc
  | ins :: rest, i, stack, acc =>
    if ins = .While then
      buildLoop rest (i + 1) (i :: stack) acc
    else if ins = .WhileEnd then
      match stack with
      | [] => buildLoop rest (i + 1) [] acc
      | open_loc :: stack' =>
        buildLoop rest (i + 1) stack' ((open_loc, i) :: acc.1, (i, open_loc) :: acc.2)
    else
      buildLoop rest (i + 1) stack acc

/-- `Machine::new` (`src/vm.rs` lines 56-88): build both jump tables, then
start with instruction pointer 0 and a one-cell zeroed tape. -/
def Machine.new (program : List Instruction) (input output : List Nat) : Machine :=
  let tables := buildLoop program 0 [] ([], [])
  { program := program
    instruction_ptr := 0
    memory := [0]
    data_ptr := 0
    open_to_close := tables.1
    close_to_open := tables.2
    input := input
    output := output }

/-- Wrapping increment over `W`-bit cells (`wrapping_add(&one())`). -/
def wrapAdd1 (W x : Nat) : Nat := (x + 1) % 2 ^ W

/-- Wrapping decrement over `W`-bit cells (`wrapping_sub(&one())`); agrees
with Rust's wrapping subtraction whenever `x < 2 ^ W`. -/
def wrapSub1 (W x : Nat) : Nat := (x + (2 ^ W - 1)) % 2 ^ W

/-- The byte emitted by `Write` (`src/vm.rs` lines 123-131): `I::from_u16(256)`
succeeds exactly when 256 is representable, i.e. when `8 < W`, in which case
the cell is reduced mod 256; otherwise the cell value itself is the byte. -/
def writeByte (W x : Nat) : Nat := if 8 < W then x % 256 else x

/-- `I::max_value()` for a `W`-bit unsigned cell. -/
def maxValue (W : Nat) : Nat := 2 ^ W - 1

/-- The cell under the data pointer
(`self.memory.get(self.data_ptr).unwrap()`; the default is irrelevant on all
reachable states, where the data pointer indexes a materialized cell). -/
def curCell (m : Machine) : Nat := m.memory.getD m.data_ptr 0

/-- `Machine::step` of the `vm` module (`src/vm.rs` lines 91-170).
Returns `.ok (true, m)` when the instruction pointer is past the program
(completion), `.ok (false, m')` after executing one instruction, and
`.error e` on a jump-table miss.  The trailing `instruction_ptr += 1` of the
Rust code is folded into every non-error arm. -/
def step (W : Nat) (m : Machine) : Except VmError (Bool × Machine) :=
  match m.program[m.instruction_ptr]? with
  | none => .ok (true, m)
  | some ins =>
    match ins with
    | .MoveRight =>
      match m.memory[m.data_ptr + 1]? with
      | none =>
        .ok (false, { m with data_ptr := m.data_ptr + 1, memory := m.memory ++ [0],
                             instruction_ptr := m.instruction_ptr + 1 })
      | some _ =>
        .ok (false, { m with data_ptr := m.data_ptr + 1,
                             instruction_ptr := m.instruction_ptr + 1 })
    | .MoveLeft =>
      if m.data_ptr = 0 then
        .ok (false, { m with memory := 0 :: m.memory,
                             instruction_ptr := m.instruction_ptr + 1 })
      else
        .ok (false, { m with data_ptr := m.data_ptr - 1,
                             instruction_ptr := m.instruction_ptr + 1 })
    | .Increment =>
      .ok (false, { m with
        memory := m.memory.set m.data_ptr (wrapAdd1 W (curCell m)),
        instruction_ptr := m.instruction_ptr + 1 })
    | .Decrement =>
      .ok (false, { m with
        memory := m.memory.set m.data_ptr (wrapSub1 W (curCell m)),
        instruction_ptr := m.instruction_ptr + 1 })
    | .Write =>
      .ok (false, { m with
        output := m.output ++ [writeByte W (curCell m)],
        instruction_ptr := m.instruction_ptr + 1 })
    | .Read =>
      match m.input with
      | b :: rest =>
        .ok (false, { m with memory := m.memory.set m.data_ptr b,
                             input := rest,
                             instruction_ptr := m.instruction_ptr + 1 })
      | [] =>
        .ok (false, { m with memory := m.memory.set m.data_ptr (maxValue W),
                             instruction_ptr := m.instruction_ptr + 1 })
    | .While =>
      if curCell m = 0 then
        match assoc m.open_to_close m.instruction_ptr with
        | some close_loc =>
          .ok (false, { m with instruction_ptr := close_loc + 1 })
        | none => .error (.UnmatchedOpenBracket m.instruction_ptr)
      else
        .ok (false, { m with instruction_ptr := m.instruction_ptr + 1 })
    | .WhileEnd =>
      if curCell m = 0 then
        .ok (false, { m with instruction_ptr := m.instruction_ptr + 1 })
      else
        match assoc m.close_to_open m.instruction_ptr with
        | some open_loc =>
          .ok (false, { m with instruction_ptr := open_loc + 1 })
        | none => .error (.UnmatchedCloseBracket m.instruction_ptr)
    | .Comment _ =>
      .ok (false, { m with instruction_ptr := m.instruction_ptr + 1 })

/-- `Machine::run` (`src/vm.rs` lines 172-183), with explicit fuel.  The Rust
driver increments `time` before every call to `step`, including the final one
that observes completion, and returns that count.  `none` means the fuel ran
out before the machine finished. -/
def runAux (W : Nat) : Nat → Machine → Option (Except VmError (Nat × Machine))
  | 0, _ => none
  | Nat.succ fuel, m =>
    match step W m with
    | .error e => some (.error e)
    | .ok (true, mf) => some (.ok (1, mf))
    | .ok (false, m') =>
      (runAux W fuel m').map (fun r => r.map (fun p => (p.1 + 1, p.2)))

/-- The number of instructions actually executed before completion: the count
of `step` calls that returned `Ok(false)` (the completion-observing call is
not counted).  `none` on fuel exhaustion or on a fatal error. -/
def execCount (W : Nat) : Nat → Machine → Option Nat
  | 0, _ => none
  | Nat.succ fuel, m =>
    match step W m with
    | .error _ => none
    | .ok (true, _) => some 0
    | .ok (false, m') => (execCount W fuel m').map (· + 1)

/-- `Machine::step` from `src/lib.rs` (lines 71-142): the same transition
function, but completion is signalled as `Err(ProgramComplete)` and a
successful step returns the plain new state. -/
def libStep (W : Nat) (m : Machine) : Except LibError Machine :=
  match m.program[m.instruction_ptr]? with
  | none => .error .ProgramComplete
  | some ins =>
    match ins with
    | .MoveRight =>
      match m.memory[m.data_ptr + 1]? with
      | none =>
        .ok { m with data_ptr := m.data_ptr + 1, memory := m.memory ++ [0],
                     instruction_ptr := m.instruction_ptr + 1 }
      | some _ =>
        .ok { m with data_ptr := m.data_ptr + 1,
                     instruction_ptr := m.instruction_ptr + 1 }
    | .MoveLeft =>
      if m.data_ptr = 0 then
        .ok { m with memory := 0 :: m.memory,
                     instruction_ptr := m.instruction_ptr + 1 }
      else
        .ok { m with data_ptr := m.data_ptr - 1,
                     instruction_ptr := m.instruction_ptr + 1 }
    | .Increment =>
      .ok { m with
        memory := m.memory.set m.data_ptr (wrapAdd1 W (curCell m)),
        instruction_ptr := m.instruction_ptr + 1 }
    | .Decrement =>
      .ok { m with
        memory := m.memory.set m.data_ptr (wrapSub1 W (curCell m)),
        instruction_ptr := m.instruction_ptr + 1 }
    | .Write =>
      .ok { m with
        output := m.output ++ [writeByte W (curCell m)],
        instruction_ptr := m.instruction_ptr + 1 }
    | .Read =>
      match m.input with
      | b :: rest =>
        .ok { m with memory := m.memory.set m.data_ptr b,
                     input := rest,
                     instruction_ptr := m.instruction_ptr + 1 }
      | [] =>
        .ok { m with memory := m.memory.set m.data_ptr (maxValue W),
                     instruction_ptr := m.instruction_ptr + 1 }
    | .While =>
      if curCell m = 0 then
        match assoc m.open_to_close m.instruction_ptr with
        | some close_loc =>
          .ok { m with instruction_ptr := close_loc + 1 }
        | none => .error (.UnmatchedOpenBracket m.instruction_ptr)
      else
        .ok { m with instruction_ptr := m.instruction_ptr + 1 }
    | .WhileEnd =>
      if curCell m = 0 then
        .ok { m with instruction_ptr := m.instruction_ptr + 1 }
      else
        match assoc m.close_to_open m.instruction_ptr with
        | some open_loc =>
          .ok { m with instruction_ptr := open_loc + 1 }
        | none => .error (.UnmatchedCloseBracket m.instruction_ptr)
    | .Comment _ =>
      .ok { m with instruction_ptr := m.instruction_ptr + 1 }

/-- How the `vm`-module result signalling translates into the `lib.rs`
signalling: `Ok(true)` becomes `Err(ProgramComplete)`, `Ok(false, m')`
becomes `Ok(m')`, and the bracket errors carry over unchanged. -/
def liftResult : Except VmError (Bool × Machine) → Except LibError Machine
  | .ok (true, _) => .error .ProgramComplete
  | .ok (false, m') => .ok m'
  | .error (.UnmatchedOpenBracket i) => .error (.UnmatchedOpenBracket i)
  | .error (.UnmatchedCloseBracket i) => .error (.UnmatchedCloseBracket i)

/-- The `cat` program of the repository's test (`src/vm.rs` lines 191-198). -/
def catProgram : List Instruction := parseProgram ",+[-.,+]".toList

/-- Specification-side notion of the syntactically matching `WhileEnd`:
starting from the sublist `l` whose head sits at absolute position `i`,
return the absolute position of the first `WhileEnd` at relative nesting
depth `d` (skipping over `d` still-open enclosing brackets). -/
def findClose : List Instruction → Nat → Nat → Option Nat
  | [], _, _ => none
  | ins :: rest, i, d =>
    if ins = .While then findClose rest (i + 1) (d + 1)
    else if ins = .WhileEnd then
      match d with
      | 0 => some i
      | d' + 1 => findClose rest (i + 1) d'
    else findClose rest (i + 1) d

/-- Specification-side balancedness of the bracket structure: scanning with a
depth counter never underflows and ends at depth zero. -/
def scanBalanced : List Instruction → Nat → Bool
  | [], d => d = 0
  | ins :: rest, d =>
    if ins = .While then scanBalanced rest (d + 1)
    else if ins = .WhileEnd then
      match d with
      | 0 => false
      | d' + 1 => scanBalanced rest d'
    else scanBalanced rest d

/-- The tape invariant of the spec: the buffer holds at least one cell and
the data pointer indexes a materialized cell. -/
def tapeInv (m : Machine) : Prop :=
  0 < m.memory.length ∧ m.data_ptr < m.memory.length

/-- A machine state whose tape is entirely zero. -/
def allZero (m : Machine) : Prop := ∀ x ∈ m.memory, x = 0

/-- A program built only from data movement and brackets (no `Read`, `Write`,
cell arithmetic or comments). -/
def movementOnly (p : List Instruction) : Prop :=
  ∀ ins ∈ p, ins = Instruction.MoveRight ∨ ins = Instruction.MoveLeft ∨
    ins = Instruction.While ∨ ins = Instruction.WhileEnd

/-- Auxiliary specification predicate: position `j` is a pending open bracket
recorded on the matcher's stack, and `c` is the position where the remaining
input `l` (whose head sits at absolute position `i`) closes it. -/
def stackSpec (l : List Instruction) (i : Nat) (stack : List Nat) (j c : Nat) : Prop :=
  ∃ k : Nat, stack[k]? = some j ∧ findClose l i k = some c

/-- Auxiliary specification predicate: `j` is the absolute position of a
`While` inside the remaining input `l` (whose head sits at absolute position
`i`) and `c` is the absolute position of its syntactically matching
`WhileEnd`. -/
def whileSpec (l : List Instruction) (i : Nat) (j c : Nat) : Prop :=
  ∃ p : Nat, l[p]? = some Instruction.While ∧ j = i + p ∧
    findClose (l.drop (p + 1)) (i + p + 1) 0 = some c

/-- `C1`: running the `cat` program `,+[-.,+]` on a 16-bit-cell machine with
input bytes `[47, 0, 38, 1, 200]` succeeds (after 29 step calls) and the
output sink holds exactly `[47, 0, 38, 1, 200]`. -/
theorem c1_cat_roundtrip :
    (runAux 16 40 (Machine.new catProgram [47, 0, 38, 1, 200] [])).map
        (fun r => r.map (fun p => (p.1, p.2.output)))
      = some (.ok (29, [47, 0, 38, 1, 200])) := by
  rfl

lemma step_complete (W : Nat) (m : Machine)
    (h : m.program.length ≤ m.instruction_ptr) : step W m = .ok (true, m) := by
  unfold step
  rw [List.getElem?_eq_none h]


section StepEquations

variable (W : Nat) (m : Machine)

lemma step_eq_moveRight_grow
    (hg : m.program[m.instruction_ptr]? = some .MoveRight)
    (hmem : m.memory[m.data_ptr + 1]? = none) :
    step W m = .ok (false, { m with data_ptr := m.data_ptr + 1, memory := m.memory ++ [0], instruction_ptr := m.instruction_ptr + 1 }) := by
  unfold step; rw [hg, hmem]

lemma step_eq_moveRight_in
    (hg : m.program[m.instruction_ptr]? = some .MoveRight) (c : Nat)
    (hmem : m.memory[m.data_ptr + 1]? = some c) :
    step W m = .ok (false, { m with data_ptr := m.data_ptr + 1, instruction_ptr := m.instruction_ptr + 1 }) := by
  unfold step; rw [hg, hmem]

lemma step_eq_moveLeft_zero
    (hg : m.program[m.instruction_ptr]? = some .MoveLeft) (hd : m.data_ptr = 0) :
    step W m = .ok (false, { m with memory := 0 :: m.memory, instruction_ptr := m.instruction_ptr + 1 }) := by
  unfold step; rw [hg]; simp [hd]

lemma step_eq_moveLeft_pos
    (hg : m.program[m.instruction_ptr]? = some .MoveLeft) (hd : m.data_ptr ≠ 0) :
    step W m = .ok (false, { m with data_ptr := m.data_ptr - 1, instruction_ptr := m.instruction_ptr + 1 }) := by
  unfold step; rw [hg]; simp [hd]

lemma step_eq_increment
    (hg : m.program[m.instruction_ptr]? = some .Increment) :
    step W m = .ok (false, { m with memory := m.memory.set m.data_ptr (wrapAdd1 W (curCell m)), instruction_ptr := m.instruction_ptr + 1 }) := by
  unfold step; rw [hg]

lemma step_eq_decrement
    (hg : m.program[m.instruction_ptr]? = some .Decrement) :
    step W m = .ok (false, { m with memory := m.memory.set m.data_ptr (wrapSub1 W (curCell m)), instruction_ptr := m.instruction_ptr + 1 }) := by
  unfold step; rw [hg]

lemma step_eq_write
    (hg : m.program[m.instruction_ptr]? = some .Write) :
    step W m = .ok (false, { m with output := m.output ++ [writeByte W (curCell m)], instruction_ptr := m.instruction_ptr + 1 }) := by
  unfold step; rw [hg]

lemma step_eq_read_cons
    (hg : m.program[m.instruction_ptr]? = some .Read) (b : Nat) (rest : List Nat)
    (hin : m.input = b :: rest) :
    step W m = .ok (false, { m with memory := m.memory.set m.data_ptr b, input := rest, instruction_ptr := m.instruction_ptr + 1 }) := by
  unfold step; rw [hg, hin]

lemma step_eq_read_nil
    (hg : m.program[m.instruction_ptr]? = some .Read) (hin : m.input = []) :
    step W m = .ok (false, { m with memory := m.memory.set m.data_ptr (maxValue W), instruction_ptr := m.instruction_ptr + 1 }) := by
  unfold step; rw [hg, hin]

lemma step_eq_while_zero_jump
    (hg : m.program[m.instruction_ptr]? = some .While)
    (hc : curCell m = 0) (c : Nat)
    (ha : assoc m.open_to_close m.instruction_ptr = some c) :
    step W m = .ok (false, { m with instruction_ptr := c + 1 }) := by
  unfold step; rw [hg]; simp [hc, ha]

lemma step_eq_while_zero_miss
    (hg : m.program[m.instruction_ptr]? = some .While)
    (hc : curCell m = 0)
    (ha : assoc m.open_to_close m.instruction_ptr = none) :
    step W m = .error (.UnmatchedOpenBracket m.instruction_ptr) := by
  unfold step; rw [hg]; simp [hc, ha]

lemma step_eq_while_nonzero
    (hg : m.program[m.instruction_ptr]? = some .While)
    (hc : curCell m ≠ 0) :
    step W m = .ok (false, { m with instruction_ptr := m.instruction_ptr + 1 }) := by
  unfold step; rw [hg]; simp [hc]

lemma step_eq_whileEnd_zero
    (hg : m.program[m.instruction_ptr]? = some .WhileEnd)
    (hc : curCell m = 0) :
    step W m = .ok (false, { m with instruction_ptr := m.instruction_ptr + 1 }) := by
  unfold step; rw [hg]; simp [hc]

lemma step_eq_whileEnd_jump
    (hg : m.program[m.instruction_ptr]? = some .WhileEnd)
    (hc : curCell m ≠ 0) (o : Nat)
    (ha : assoc m.close_to_open m.instruction_ptr = some o) :
    step W m = .ok (false, { m with instruction_ptr := o + 1 }) := by
  unfold step; rw [hg]; simp [hc, ha]

lemma step_eq_whileEnd_miss
    (hg : m.program[m.instruction_ptr]? = some .WhileEnd)
    (hc : curCell m ≠ 0)
    (ha : assoc m.close_to_open m.instruction_ptr = none) :
    step W m = .error (.UnmatchedCloseBracket m.instruction_ptr) := by
  unfold step; rw [hg]; simp [hc, ha]

lemma step_eq_comment (c : Char)
    (hg : m.program[m.instruction_ptr]? = some (.Comment c)) :
    step W m = .ok (false, { m with instruction_ptr := m.instruction_ptr + 1 }) := by
  unfold step; rw [hg]

end StepEquations

section RunEquations

variable (W : Nat) (m : Machine)

lemma runAux_succ_error (f : Nat) (e : VmError) (hs : step W m = .error e) :
    runAux W (f + 1) m = some (.error e) := by
  unfold runAux; rw [hs]

lemma runAux_succ_true (f : Nat) (mf : Machine) (hs : step W m = .ok (true, mf)) :
    runAux W (f + 1) m = some (.ok (1, mf)) := by
  unfold runAux; rw [hs]

lemma runAux_succ_false (f : Nat) (m' : Machine) (hs : step W m = .ok (false, m')) :
    runAux W (f + 1) m = (runAux W f m').map (fun r => r.map (fun p => (p.1 + 1, p.2))) := by
  conv_lhs => unfold runAux
  rw [hs]

lemma execCount_succ_true (f : Nat) (mf : Machine) (hs : step W m = .ok (true, mf)) :
    execCount W (f + 1) m = some 0 := by
  unfold execCount; rw [hs]

lemma execCount_succ_false (f : Nat) (m' : Machine) (hs : step W m = .ok (false, m')) :
    execCount W (f + 1) m = (execCount W f m').map (· + 1) := by
  conv_lhs => unfold execCount
  rw [hs]

end RunEquations

lemma step_ok_true (W : Nat) (m mf : Machine)
    (h : step W m = .ok (true, mf)) :
    mf = m ∧ m.program.length ≤ m.instruction_ptr := by
  rcases hg : m.program[m.instruction_ptr]? with _ | ins
  · rw [step_complete W m (List.getElem?_eq_none_iff.mp hg)] at h
    simp only [Except.ok.injEq, Prod.mk.injEq] at h
    exact ⟨h.2.symm, List.getElem?_eq_none_iff.mp hg⟩
  · exfalso
    cases ins
    case MoveRight =>
      rcases hmem : m.memory[m.data_ptr + 1]? with _ | c
      · rw [step_eq_moveRight_grow W m hg hmem] at h; simp at h
      · rw [step_eq_moveRight_in W m hg c hmem] at h; simp at h
    case MoveLeft =>
      by_cases hd : m.data_ptr = 0
      · rw [step_eq_moveLeft_zero W m hg hd] at h; simp at h
      · rw [step_eq_moveLeft_pos W m hg hd] at h; simp at h
    case Increment => rw [step_eq_increment W m hg] at h; simp at h
    case Decrement => rw [step_eq_decrement W m hg] at h; simp at h
    case Write => rw [step_eq_write W m hg] at h; simp at h
    case Read =>
      rcases hin : m.input with _ | ⟨b, rest⟩
      · rw [step_eq_read_nil W m hg hin] at h; simp at h
      · rw [step_eq_read_cons W m hg b rest hin] at h; simp at h
    case While =>
      by_cases hc : curCell m = 0
      · rcases ha : assoc m.open_to_close m.instruction_ptr with _ | c
        · rw [step_eq_while_zero_miss W m hg hc ha] at h; simp at h
        · rw [step_eq_while_zero_jump W m hg hc c ha] at h; simp at h
      · rw [step_eq_while_nonzero W m hg hc] at h; simp at h
    case WhileEnd =>
      by_cases hc : curCell m = 0
      · rw [step_eq_whileEnd_zero W m hg hc] at h; simp at h
      · rcases ha : assoc m.close_to_open m.instruction_ptr with _ | o
        · rw [step_eq_whileEnd_miss W m hg hc ha] at h; simp at h
        · rw [step_eq_whileEnd_jump W m hg hc o ha] at h; simp at h
    case Comment c => rw [step_eq_comment W m c hg] at h; simp at h

lemma runAux_ok_complete (W : Nat) :
    ∀ f m t mf, runAux W f m = some (.ok (t, mf)) →
      mf.program.length ≤ mf.instruction_ptr := by
  intro f
  induction f with
  | zero => intro m t mf h; simp [runAux] at h
  | succ f ih =>
    intro m t mf h
    rcases hs : step W m with e | ⟨b, m'⟩
    · rw [runAux_succ_error W m f e hs] at h; simp at h
    · cases b
      · rw [runAux_succ_false W m f m' hs] at h
        rcases ho : runAux W f m' with _ | r
        · rw [ho] at h; simp at h
        · rw [ho] at h
          simp only [Option.map_some', Option.some.injEq] at h
          rcases r with e' | ⟨t', mf'⟩
          · simp [Except.map] at h
          · simp [Except.map] at h
            rcases h with ⟨-, h2⟩
            exact h2 ▸ ih m' t' mf' ho
      · rw [runAux_succ_true W m f m' hs] at h
        simp only [Option.some.injEq, Except.ok.injEq, Prod.mk.injEq] at h
        rcases h with ⟨-, h2⟩
        rcases step_ok_true W m m' hs with ⟨rfl, hlen⟩
        exact h2 ▸ hlen

/-- `C9`: when the instruction pointer is at or past the end of the program,
`step` reports completion as `Ok(true)` with the machine unchanged, not as an
error; and every successful `run` terminates through exactly this path: the
final machine of a successful `runAux` has its instruction pointer out of
range, and `step` on it reports completion with the state unchanged. -/
theorem c9_completion_signal (W : Nat) (m : Machine) :
    (m.program.length ≤ m.instruction_ptr → step W m = .ok (true, m)) ∧
    (∀ f t mf, runAux W f m = some (.ok (t, mf)) →
      mf.program.length ≤ mf.instruction_ptr ∧ step W mf = .ok (true, mf)) := by
  refine ⟨fun h => step_complete W m h, fun f t mf h => ?_⟩
  have hlen := runAux_ok_complete W f m t mf h
  exact ⟨hlen, step_complete W mf hlen⟩

theorem c9_completion_signal_witness :
    step 8 (Machine.new [] [] []) = .ok (true, Machine.new [] [] []) ∧
    (Machine.new [] [] []).program.length ≤ (Machine.new [] [] []).instruction_ptr := by
  refine ⟨(c9_completion_signal 8 (Machine.new [] [] [])).1 (by decide), ?_⟩
  exact ((c9_completion_signal 8 (Machine.new [] [] [])).2 1 1 (Machine.new [] [] []) rfl).1

/-- `C4`: a freshly constructed machine satisfies the tape invariant (at
least one cell, data pointer within the buffer), and every successful `step`
preserves it; hence every tape access inside `step` hits a materialized
cell. -/
theorem c4_tape_invariant :
    (∀ p inp outp, tapeInv (Machine.new p inp outp)) ∧
    (∀ W m b m', tapeInv m → step W m = .ok (b, m') → tapeInv m') := by
  constructor
  · intro p inp outp
    exact ⟨by simp [Machine.new], by simp [Machine.new]⟩
  · intro W m b m' hinv hstep
    obtain ⟨h1, h2⟩ := hinv
    cases b
    case true =>
      obtain ⟨rfl, -⟩ := step_ok_true W m m' hstep
      exact ⟨h1, h2⟩
    case false =>
      rcases hg : m.program[m.instruction_ptr]? with _ | ins
      · rw [step_complete W m (List.getElem?_eq_none_iff.mp hg)] at hstep
        simp at hstep
      · cases ins
        case MoveRight =>
          rcases hmem : m.memory[m.data_ptr + 1]? with _ | c
          · have hx := (step_eq_moveRight_grow W m hg hmem).symm.trans hstep
            simp only [Except.ok.injEq, Prod.mk.injEq, true_and] at hx
            subst hx
            exact ⟨by simp, by simpa using Nat.succ_lt_succ h2⟩
          · have hx := (step_eq_moveRight_in W m hg c hmem).symm.trans hstep
            simp only [Except.ok.injEq, Prod.mk.injEq, true_and] at hx
            subst hx
            have : m.data_ptr + 1 < m.memory.length :=
              (List.getElem?_eq_some.mp hmem).1
            exact ⟨h1, this⟩
        case MoveLeft =>
          by_cases hd : m.data_ptr = 0
          · have hx := (step_eq_moveLeft_zero W m hg hd).symm.trans hstep
            simp only [Except.ok.injEq, Prod.mk.injEq, true_and] at hx
            subst hx
            exact ⟨by simp, by simp [hd]⟩
          · have hx := (step_eq_moveLeft_pos W m hg hd).symm.trans hstep
            simp only [Except.ok.injEq, Prod.mk.injEq, true_and] at hx
            subst hx
            exact ⟨h1, by simpa using Nat.lt_of_le_of_lt (Nat.pred_le _) h2⟩
        case Increment =>
          have hx := (step_eq_increment W m hg).symm.trans hstep
          simp only [Except.ok.injEq, Prod.mk.injEq, true_and] at hx
          subst hx
          exact ⟨by simpa using h1, by simpa using h2⟩
        case Decrement =>
          have hx := (step_eq_decrement W m hg).symm.trans hstep
          simp only [Except.ok.injEq, Prod.mk.injEq, true_and] at hx
          subst hx
          exact ⟨by simpa using h1, by simpa using h2⟩
        case Write =>
          have hx := (step_eq_write W m hg).symm.trans hstep
          simp only [Except.ok.injEq, Prod.mk.injEq, true_and] at hx
          subst hx
          exact ⟨h1, h2⟩
        case Read =>
          rcases hin : m.input with _ | ⟨bb, rest⟩
          · have hx := (step_eq_read_nil W m hg hin).symm.trans hstep
            simp only [Except.ok.injEq, Prod.mk.injEq, true_and] at hx
            subst hx
            exact ⟨by simpa using h1, by simpa using h2⟩
          · have hx := (step_eq_read_cons W m hg bb rest hin).symm.trans hstep
            simp only [Except.ok.injEq, Prod.mk.injEq, true_and] at hx
            subst hx
            exact ⟨by simpa using h1, by simpa using h2⟩
        case While =>
          by_cases hc : curCell m = 0
          · rcases ha : assoc m.open_to_close m.instruction_ptr with _ | c
            · rw [step_eq_while_zero_miss W m hg hc ha] at hstep; simp at hstep
            · have hx := (step_eq_while_zero_jump W m hg hc c ha).symm.trans hstep
              simp only [Except.ok.injEq, Prod.mk.injEq, true_and] at hx
              subst hx
              exact ⟨h1, h2⟩
          · have hx := (step_eq_while_nonzero W m hg hc).symm.trans hstep
            simp only [Except.ok.injEq, Prod.mk.injEq, true_and] at hx
            subst hx
            exact ⟨h1, h2⟩
        case WhileEnd =>
          by_cases hc : curCell m = 0
          · have hx := (step_eq_whileEnd_zero W m hg hc).symm.trans hstep
            simp only [Except.ok.injEq, Prod.mk.injEq, true_and] at hx
            subst hx
            exact ⟨h1, h2⟩
          · rcases ha : assoc m.close_to_open m.instruction_ptr with _ | o
            · rw [step_eq_whileEnd_miss W m hg hc ha] at hstep; simp at hstep
            · have hx := (step_eq_whileEnd_jump W m hg hc o ha).symm.trans hstep
              simp only [Except.ok.injEq, Prod.mk.injEq, true_and] at hx
              subst hx
              exact ⟨h1, h2⟩
        case Comment c =>
          have hx := (step_eq_comment W m c hg).symm.trans hstep
          simp only [Except.ok.injEq, Prod.mk.injEq, true_and] at hx
          subst hx
          exact ⟨h1, h2⟩

theorem c4_tape_invariant_witness :
    tapeInv { program := [Instruction.Increment], instruction_ptr := 1, memory := [1], data_ptr := 0, open_to_close := [], close_to_open := [], input := [], output := [] } :=
  c4_tape_invariant.2 8 (Machine.new [Instruction.Increment] [] []) false
    { program := [Instruction.Increment], instruction_ptr := 1, memory := [1], data_ptr := 0, open_to_close := [], close_to_open := [], input := [], output := [] }
    (c4_tape_invariant.1 [Instruction.Increment] [] []) rfl

/-- `C7`: executing `Read` with an exhausted input source succeeds (it is not
an error of any kind; the model's list-based source reports zero bytes, never
an I/O failure) and stores the maximum representable `W`-bit value
`2 ^ W - 1` in the cell under the data pointer. -/
theorem c7_read_exhaustion (W : Nat) (m : Machine)
    (hg : m.program[m.instruction_ptr]? = some .Read)
    (hin : m.input = [])
    (hdp : m.data_ptr < m.memory.length) :
    step W m = .ok (false, { m with memory := m.memory.set m.data_ptr (2 ^ W - 1), instruction_ptr := m.instruction_ptr + 1 }) ∧
    (m.memory.set m.data_ptr (2 ^ W - 1))[m.data_ptr]? = some (2 ^ W - 1) := by
  constructor
  · simpa [maxValue] using step_eq_read_nil W m hg hin
  · simp [List.getElem?_set_self, hdp]

theorem c7_read_exhaustion_witness :
    step 16 (Machine.new [Instruction.Read] [] []) = .ok (false, { Machine.new [Instruction.Read] [] [] with memory := [65535], instruction_ptr := 1 }) ∧
    ([(0 : Nat)].set 0 65535)[0]? = some 65535 := by
  have h := c7_read_exhaustion 16 (Machine.new [Instruction.Read] [] []) rfl rfl (by decide)
  simp only [Machine.new, List.set] at h ⊢
  convert h using 4

/-- `C8`: executing `Write` with cell width greater than 8 bits appends
exactly one byte, the cell value reduced modulo 256, to the output sink;
with width at most 8 bits the cell value itself is the byte. -/
theorem c8_write_byte (W : Nat) (m : Machine)
    (hg : m.program[m.instruction_ptr]? = some .Write) :
    (8 < W → step W m = .ok (false, { m with output := m.output ++ [curCell m % 256], instruction_ptr := m.instruction_ptr + 1 })) ∧
    (W ≤ 8 → step W m = .ok (false, { m with output := m.output ++ [curCell m], instruction_ptr := m.instruction_ptr + 1 })) := by
  constructor
  · intro h8
    have h := step_eq_write W m hg
    rwa [writeByte, if_pos h8] at h
  · intro h8
    have h := step_eq_write W m hg
    rwa [writeByte, if_neg (by omega)] at h

theorem c8_write_byte_witness :
    step 16 { program := [Instruction.Write], instruction_ptr := 0, memory := [300], data_ptr := 0, open_to_close := [], close_to_open := [], input := [], output := [] } = .ok (false, { program := [Instruction.Write], instruction_ptr := 1, memory := [300], data_ptr := 0, open_to_close := [], close_to_open := [], input := [], output := [44] }) := by
  have h := (c8_write_byte 16 { program := [Instruction.Write], instruction_ptr := 0, memory := [300], data_ptr := 0, open_to_close := [], close_to_open := [], input := [], output := [] } rfl).1 (by norm_num)
  simpa [curCell] using h

/-- `C5` (amended): when `step` executes a `WhileEnd` whose cell is non-zero
and whose position is in the close-to-open table, it sets the instruction
pointer to the matching open position and the unconditional final increment
then moves it one past, so the instruction examined by the next `step` call
is the one immediately after the matching `While` (the first instruction of
the loop body), not the `While` itself. -/
theorem c5_whileEnd_backjump (W : Nat) (m : Machine)
    (hg : m.program[m.instruction_ptr]? = some .WhileEnd)
    (hc : curCell m ≠ 0) (o : Nat)
    (ha : assoc m.close_to_open m.instruction_ptr = some o) :
    step W m = .ok (false, { m with instruction_ptr := o + 1 }) ∧
    (step W m).toOption.map (fun p => p.2.program[p.2.instruction_ptr]?) = some (m.program[o + 1]?) := by
  have h := step_eq_whileEnd_jump W m hg hc o ha
  exact ⟨h, by rw [h]; rfl⟩

theorem c5_whileEnd_backjump_witness :
    step 16 { Machine.new (parseProgram "++[-]".toList) [] [] with instruction_ptr := 4, memory := [1] } = .ok (false, { Machine.new (parseProgram "++[-]".toList) [] [] with instruction_ptr := 3, memory := [1] }) := by
  have h := (c5_whileEnd_backjump 16
    { Machine.new (parseProgram "++[-]".toList) [] [] with instruction_ptr := 4, memory := [1] }
    rfl (by decide) 2 rfl).1
  exact h

/-- `C5` counterexample to the claim as stated: in the program `++[-]` (with
`While` at position 2 and `WhileEnd` at position 4), stepping the `WhileEnd`
with cell value 1 leaves the instruction pointer at 3, so the next `step`
examines the `Decrement` at position 3 — not the matching `While` at
position 2. -/
theorem c5_counterexample :
    step 16 { Machine.new (parseProgram "++[-]".toList) [] [] with instruction_ptr := 4, memory := [1] } = .ok (false, { Machine.new (parseProgram "++[-]".toList) [] [] with instruction_ptr := 3, memory := [1] }) ∧
    assoc (Machine.new (parseProgram "++[-]".toList) [] []).close_to_open 4 = some 2 ∧
    (parseProgram "++[-]".toList)[2]? = some Instruction.While ∧
    (parseProgram "++[-]".toList)[3]? = some Instruction.Decrement ∧
    some Instruction.Decrement ≠ some Instruction.While := by
  exact ⟨rfl, rfl, rfl, rfl, by decide⟩

lemma buildLoop_no_end (l : List Instruction)
    (hne : ∀ a ∈ l, a ≠ Instruction.WhileEnd) :
    ∀ i stack acc, buildLoop l i stack acc = acc := by
  induction l with
  | nil => intro i stack acc; rfl
  | cons ins rest ih =>
    intro i stack acc
    have hrest : ∀ a ∈ rest, a ≠ Instruction.WhileEnd :=
      fun a ha => hne a (List.mem_cons_of_mem _ ha)
    unfold buildLoop
    by_cases hw : ins = Instruction.While
    · rw [if_pos hw]
      exact ih hrest _ _ _
    · rw [if_neg hw, if_neg (hne ins (List.mem_cons_self _ _))]
      exact ih hrest _ _ _

/-- `C6`: in a program whose only bracket is an unmatched `While` (no
`WhileEnd` anywhere), when execution reaches that `While`: with a zero cell,
`step` fails with `UnmatchedOpenBracket` at that position and the run halts
with that error; with a non-zero cell, no error occurs and execution falls
through to the next instruction. -/
theorem c6_unmatched_open (W : Nat) (m : Machine) (p : Nat)
    (hg : m.program[p]? = some Instruction.While)
    (hnoEnd : ∀ i : Nat, m.program[i]? ≠ some Instruction.WhileEnd)
    (htab : m.open_to_close = (buildLoop m.program 0 [] ([], [])).1)
    (hip : m.instruction_ptr = p) :
    (curCell m = 0 → step W m = .error (.UnmatchedOpenBracket p) ∧
      ∀ f, runAux W (f + 1) m = some (.error (.UnmatchedOpenBracket p))) ∧
    (curCell m ≠ 0 → step W m = .ok (false, { m with instruction_ptr := p + 1 })) := by
  subst hip
  have hne : ∀ a ∈ m.program, a ≠ Instruction.WhileEnd := by
    intro a ha heq
    rcases List.mem_iff_getElem?.mp ha with ⟨i, hi⟩
    exact hnoEnd i (heq ▸ hi)
  have htab0 : m.open_to_close = [] := by
    rw [htab, buildLoop_no_end m.program hne 0 [] ([], [])]
  constructor
  · intro hc
    have hstep := step_eq_while_zero_miss W m hg hc (by rw [htab0]; rfl)
    exact ⟨hstep, fun f => runAux_succ_error W m f _ hstep⟩
  · intro hc
    exact step_eq_while_nonzero W m hg hc

theorem c6_unmatched_open_witness :
    step 8 (Machine.new [Instruction.While] [] []) = .error (.UnmatchedOpenBracket 0) ∧
    runAux 8 1 (Machine.new [Instruction.While] [] []) = some (.error (.UnmatchedOpenBracket 0)) := by
  have h := (c6_unmatched_open 8 (Machine.new [Instruction.While] [] []) 0 rfl
    (by intro i; rcases i with _ | i <;> simp [Machine.new]) rfl rfl).1 rfl
  exact ⟨h.1, h.2 0⟩

/-- `C10`: the `step` of `src/lib.rs` and the `step` of the `vm` module in
`src/vm.rs` perform identical state transitions and I/O on every machine
state, every instruction and every input; they differ only in signalling:
`Ok(false, m')` corresponds to `Ok(m')`, `Ok(true, _)` to
`Err(ProgramComplete)`, and the bracket errors carry over unchanged
(`liftResult` is exactly this renaming of outcomes). -/
theorem c10_lib_vm_equivalence (W : Nat) (m : Machine) :
    libStep W m = liftResult (step W m) := by
  rcases hg : m.program[m.instruction_ptr]? with _ | ins
  · rw [step_complete W m (List.getElem?_eq_none_iff.mp hg)]
    unfold libStep liftResult
    rw [hg]
  · cases ins
    case MoveRight =>
      rcases hmem : m.memory[m.data_ptr + 1]? with _ | c
      · rw [step_eq_moveRight_grow W m hg hmem]; unfold libStep liftResult; rw [hg, hmem]
      · rw [step_eq_moveRight_in W m hg c hmem]; unfold libStep liftResult; rw [hg, hmem]
    case MoveLeft =>
      by_cases hd : m.data_ptr = 0
      · rw [step_eq_moveLeft_zero W m hg hd]; unfold libStep liftResult; rw [hg]; simp [hd]
      · rw [step_eq_moveLeft_pos W m hg hd]; unfold libStep liftResult; rw [hg]; simp [hd]
    case Increment =>
      rw [step_eq_increment W m hg]; unfold libStep liftResult; rw [hg]
    case Decrement =>
      rw [step_eq_decrement W m hg]; unfold libStep liftResult; rw [hg]
    case Write =>
      rw [step_eq_write W m hg]; unfold libStep liftResult; rw [hg]
    case Read =>
      rcases hin : m.input with _ | ⟨b, rest⟩
      · rw [step_eq_read_nil W m hg hin]; unfold libStep liftResult; rw [hg, hin]
      · rw [step_eq_read_cons W m hg b rest hin]; unfold libStep liftResult; rw [hg, hin]
    case While =>
      by_cases hc : curCell m = 0
      · rcases ha : assoc m.open_to_close m.instruction_ptr with _ | c
        · rw [step_eq_while_zero_miss W m hg hc ha]; unfold libStep liftResult; rw [hg]; simp [hc, ha]
        · rw [step_eq_while_zero_jump W m hg hc c ha]; unfold libStep liftResult; rw [hg]; simp [hc, ha]
      · rw [step_eq_while_nonzero W m hg hc]; unfold libStep liftResult; rw [hg]; simp [hc]
    case WhileEnd =>
      by_cases hc : curCell m = 0
      · rw [step_eq_whileEnd_zero W m hg hc]; unfold libStep liftResult; rw [hg]; simp [hc]
      · rcases ha : assoc m.close_to_open m.instruction_ptr with _ | o
        · rw [step_eq_whileEnd_miss W m hg hc ha]; unfold libStep liftResult; rw [hg]; simp [hc, ha]
        · rw [step_eq_whileEnd_jump W m hg hc o ha]; unfold libStep liftResult; rw [hg]; simp [hc, ha]
    case Comment c =>
      rw [step_eq_comment W m c hg]; unfold libStep liftResult; rw [hg]

section BracketLemmas

lemma buildLoop_while (rest : List Instruction) (i : Nat) (stack : List Nat)
    (acc : List (Nat × Nat) × List (Nat × Nat)) :
    buildLoop (Instruction.While :: rest) i stack acc = buildLoop rest (i + 1) (i :: stack) acc := by
  simp [buildLoop]

lemma buildLoop_whileEnd_nil (rest : List Instruction) (i : Nat)
    (acc : List (Nat × Nat) × List (Nat × Nat)) :
    buildLoop (Instruction.WhileEnd :: rest) i [] acc = buildLoop rest (i + 1) [] acc := by
  simp [buildLoop]

lemma buildLoop_whileEnd_cons (rest : List Instruction) (i t : Nat) (s : List Nat)
    (acc : List (Nat × Nat) × List (Nat × Nat)) :
    buildLoop (Instruction.WhileEnd :: rest) i (t :: s) acc =
      buildLoop rest (i + 1) s ((t, i) :: acc.1, (i, t) :: acc.2) := by
  simp [buildLoop]

lemma buildLoop_other (ins : Instruction) (rest : List Instruction) (i : Nat)
    (stack : List Nat) (acc : List (Nat × Nat) × List (Nat × Nat))
    (h1 : ins ≠ Instruction.While) (h2 : ins ≠ Instruction.WhileEnd) :
    buildLoop (ins :: rest) i stack acc = buildLoop rest (i + 1) stack acc := by
  simp [buildLoop, h1, h2]

lemma findClose_while (rest : List Instruction) (i d : Nat) :
    findClose (Instruction.While :: rest) i d = findClose rest (i + 1) (d + 1) := by
  simp [findClose]

lemma findClose_whileEnd_zero (rest : List Instruction) (i : Nat) :
    findClose (Instruction.WhileEnd :: rest) i 0 = some i := by
  simp [findClose]

lemma findClose_whileEnd_succ (rest : List Instruction) (i d : Nat) :
    findClose (Instruction.WhileEnd :: rest) i (d + 1) = findClose rest (i + 1) d := by
  simp [findClose]

lemma findClose_other (ins : Instruction) (rest : List Instruction) (i d : Nat)
    (h1 : ins ≠ Instruction.While) (h2 : ins ≠ Instruction.WhileEnd) :
    findClose (ins :: rest) i d = findClose rest (i + 1) d := by
  simp [findClose, h1, h2]

lemma assoc_mem : ∀ (l : List (Nat × Nat)) (j c : Nat), assoc l j = some c → (j, c) ∈ l := by
  intro l
  induction l with
  | nil => intro j c h; simp [assoc] at h
  | cons kv rest ih =>
    intro j c h
    rcases kv with ⟨k, v⟩
    by_cases hk : k = j
    · subst hk
      rw [assoc, if_pos rfl] at h
      simp at h
      simp [h]
    · rw [assoc, if_neg hk] at h
      exact List.mem_cons_of_mem _ (ih j c h)

lemma mem_assoc_isSome : ∀ (l : List (Nat × Nat)) (j c : Nat), (j, c) ∈ l → (assoc l j).isSome := by
  intro l
  induction l with
  | nil => intro j c h; simp at h
  | cons kv rest ih =>
    intro j c h
    rcases kv with ⟨k, v⟩
    by_cases hk : k = j
    · subst hk; rw [assoc, if_pos rfl]; rfl
    · rw [assoc, if_neg hk]
      rcases List.mem_cons.mp h with h1 | h1
      · exact absurd (congrArg Prod.fst h1).symm hk
      · exact ih j c h1

lemma findClose_le : ∀ (l : List Instruction) (i d c : Nat), findClose l i d = some c → i ≤ c := by
  intro l
  induction l with
  | nil => intro i d c h; simp [findClose] at h
  | cons ins rest ih =>
    intro i d c h
    by_cases hw : ins = Instruction.While
    · subst hw
      rw [findClose_while] at h
      exact Nat.le_of_succ_le (ih (i + 1) (d + 1) c h)
    · by_cases he : ins = Instruction.WhileEnd
      · subst he
        cases d with
        | zero =>
          rw [findClose_whileEnd_zero] at h
          simp at h
          omega
        | succ d =>
          rw [findClose_whileEnd_succ] at h
          exact Nat.le_of_succ_le (ih (i + 1) d c h)
      · rw [findClose_other ins rest i d hw he] at h
        exact Nat.le_of_succ_le (ih (i + 1) d c h)

lemma findClose_getElem :
    ∀ (l : List Instruction) (i d c : Nat), findClose l i d = some c →
      l[c - i]? = some Instruction.WhileEnd := by
  intro l
  induction l with
  | nil => intro i d c h; simp [findClose] at h
  | cons ins rest ih =>
    intro i d c h
    by_cases hw : ins = Instruction.While
    · subst hw
      rw [findClose_while] at h
      have hle := findClose_le rest (i + 1) (d + 1) c h
      have := ih (i + 1) (d + 1) c h
      have hsub : c - i = (c - (i + 1)) + 1 := by omega
      rw [hsub, List.getElem?_cons_succ]
      exact this
    · by_cases he : ins = Instruction.WhileEnd
      · subst he
        cases d with
        | zero =>
          rw [findClose_whileEnd_zero] at h
          simp at h
          subst h
          simp
        | succ d =>
          rw [findClose_whileEnd_succ] at h
          have hle := findClose_le rest (i + 1) d c h
          have := ih (i + 1) d c h
          have hsub : c - i = (c - (i + 1)) + 1 := by omega
          rw [hsub, List.getElem?_cons_succ]
          exact this
      · rw [findClose_other ins rest i d hw he] at h
        have hle := findClose_le rest (i + 1) d c h
        have := ih (i + 1) d c h
        have hsub : c - i = (c - (i + 1)) + 1 := by omega
        rw [hsub, List.getElem?_cons_succ]
        exact this

lemma buildLoop_swap :
    ∀ (l : List Instruction) (i : Nat) (stack : List Nat) (o2c c2o : List (Nat × Nat)),
      ∃ ne : List (Nat × Nat),
        (buildLoop l i stack (o2c, c2o)).1 = ne ++ o2c ∧
        (buildLoop l i stack (o2c, c2o)).2 = ne.map Prod.swap ++ c2o := by
  intro l
  induction l with
  | nil => intro i stack o2c c2o; exact ⟨[], rfl, rfl⟩
  | cons ins rest ih =>
    intro i stack o2c c2o
    by_cases hw : ins = Instruction.While
    · subst hw
      rw [buildLoop_while]
      exact ih (i + 1) (i :: stack) o2c c2o
    · by_cases he : ins = Instruction.WhileEnd
      · subst he
        cases stack with
        | nil =>
          rw [buildLoop_whileEnd_nil]
          exact ih (i + 1) [] o2c c2o
        | cons t s =>
          rw [buildLoop_whileEnd_cons]
          obtain ⟨ne, h1, h2⟩ := ih (i + 1) s ((t, i) :: o2c) ((i, t) :: c2o)
          refine ⟨ne ++ [(t, i)], ?_, ?_⟩
          · rw [h1, List.append_assoc]; rfl
          · rw [h2, List.map_append, List.append_assoc]; rfl
      · rw [buildLoop_other ins rest i stack _ hw he]
        exact ih (i + 1) stack o2c c2o

end BracketLemmas

lemma buildLoop_mem_fst :
    ∀ (l : List Instruction) (i : Nat) (stack : List Nat) (o2c c2o : List (Nat × Nat)) (j c : Nat),
      (j, c) ∈ (buildLoop l i stack (o2c, c2o)).1 ↔
        (j, c) ∈ o2c ∨ stackSpec l i stack j c ∨ whileSpec l i j c := by
  intro l
  induction l with
  | nil =>
    intro i stack o2c c2o j c
    simp [buildLoop, stackSpec, whileSpec, findClose]
  | cons ins rest ih =>
    intro i stack o2c c2o j c
    by_cases hw : ins = Instruction.While
    · subst hw
      rw [buildLoop_while, ih]
      simp only [stackSpec, whileSpec]
      constructor
      · rintro (h | ⟨k, hk, hf⟩ | ⟨p, hp, hj, hf⟩)
        · exact Or.inl h
        · cases k with
          | zero =>
            simp only [List.getElem?_cons_zero, Option.some.injEq] at hk
            subst hk
            refine Or.inr (Or.inr ⟨0, by simp, by simp, ?_⟩)
            simpa using hf
          | succ k =>
            refine Or.inr (Or.inl ⟨k, by simpa using hk, ?_⟩)
            rw [findClose_while]
            exact hf
        · subst hj
          refine Or.inr (Or.inr ⟨p + 1, by simpa using hp, by omega, ?_⟩)
          rw [List.drop_succ_cons]
          have harith : i + (p + 1) + 1 = i + 1 + p + 1 := by omega
          rw [harith]
          exact hf
      · rintro (h | ⟨k, hk, hf⟩ | ⟨p, hp, hj, hf⟩)
        · exact Or.inl h
        · refine Or.inr (Or.inl ⟨k + 1, by simpa using hk, ?_⟩)
          rw [findClose_while] at hf
          exact hf
        · cases p with
          | zero =>
            refine Or.inr (Or.inl ⟨0, by simp [hj], ?_⟩)
            simpa using hf
          | succ p =>
            subst hj
            refine Or.inr (Or.inr ⟨p, by simpa using hp, by omega, ?_⟩)
            rw [List.drop_succ_cons] at hf
            have harith : i + (p + 1) + 1 = i + 1 + p + 1 := by omega
            rw [harith] at hf
            exact hf
    · by_cases he : ins = Instruction.WhileEnd
      · subst he
        cases stack with
        | nil =>
          rw [buildLoop_whileEnd_nil, ih]
          simp only [stackSpec, whileSpec]
          constructor
          · rintro (h | ⟨k, hk, hf⟩ | ⟨p, hp, hj, hf⟩)
            · exact Or.inl h
            · simp at hk
            · subst hj
              refine Or.inr (Or.inr ⟨p + 1, by simpa using hp, by omega, ?_⟩)
              rw [List.drop_succ_cons]
              have harith : i + (p + 1) + 1 = i + 1 + p + 1 := by omega
              rw [harith]
              exact hf
          · rintro (h | ⟨k, hk, hf⟩ | ⟨p, hp, hj, hf⟩)
            · exact Or.inl h
            · simp at hk
            · cases p with
              | zero => simp at hp
              | succ p =>
                subst hj
                refine Or.inr (Or.inr ⟨p, by simpa using hp, by omega, ?_⟩)
                rw [List.drop_succ_cons] at hf
                have harith : i + (p + 1) + 1 = i + 1 + p + 1 := by omega
                rw [harith] at hf
                exact hf
        | cons t s =>
          rw [buildLoop_whileEnd_cons, ih]
          simp only [stackSpec, whileSpec]
          constructor
          · rintro (h | ⟨k, hk, hf⟩ | ⟨p, hp, hj, hf⟩)
            · rcases List.mem_cons.mp h with h1 | h1
              · obtain ⟨rfl, rfl⟩ : j = t ∧ c = i := by simpa using h1
                exact Or.inr (Or.inl ⟨0, by simp, by rw [findClose_whileEnd_zero]⟩)
              · exact Or.inl h1
            · refine Or.inr (Or.inl ⟨k + 1, by simpa using hk, ?_⟩)
              rw [findClose_whileEnd_succ]
              exact hf
            · subst hj
              refine Or.inr (Or.inr ⟨p + 1, by simpa using hp, by omega, ?_⟩)
              rw [List.drop_succ_cons]
              have harith : i + (p + 1) + 1 = i + 1 + p + 1 := by omega
              rw [harith]
              exact hf
          · rintro (h | ⟨k, hk, hf⟩ | ⟨p, hp, hj, hf⟩)
            · exact Or.inl (List.mem_cons_of_mem _ h)
            · cases k with
              | zero =>
                rw [findClose_whileEnd_zero] at hf
                simp only [List.getElem?_cons_zero, Option.some.injEq] at hk hf
                subst hk
                subst hf
                exact Or.inl (List.mem_cons_self _ _)
              | succ k =>
                refine Or.inr (Or.inl ⟨k, by simpa using hk, ?_⟩)
                rw [findClose_whileEnd_succ] at hf
                exact hf
            · cases p with
              | zero => simp at hp
              | succ p =>
                subst hj
                refine Or.inr (Or.inr ⟨p, by simpa using hp, by omega, ?_⟩)
                rw [List.drop_succ_cons] at hf
                have harith : i + (p + 1) + 1 = i + 1 + p + 1 := by omega
                rw [harith] at hf
                exact hf
      · rw [buildLoop_other ins rest i stack _ hw he, ih]
        simp only [stackSpec, whileSpec]
        constructor
        · rintro (h | ⟨k, hk, hf⟩ | ⟨p, hp, hj, hf⟩)
          · exact Or.inl h
          · refine Or.inr (Or.inl ⟨k, hk, ?_⟩)
            rw [findClose_other ins rest i k hw he]
            exact hf
          · subst hj
            refine Or.inr (Or.inr ⟨p + 1, by simpa using hp, by omega, ?_⟩)
            rw [List.drop_succ_cons]
            have harith : i + (p + 1) + 1 = i + 1 + p + 1 := by omega
            rw [harith]
            exact hf
        · rintro (h | ⟨k, hk, hf⟩ | ⟨p, hp, hj, hf⟩)
          · exact Or.inl h
          · refine Or.inr (Or.inl ⟨k, hk, ?_⟩)
            rw [findClose_other ins rest i k hw he] at hf
            exact hf
          · cases p with
            | zero =>
              simp only [List.getElem?_cons_zero, Option.some.injEq] at hp
              exact absurd hp hw
            | succ p =>
              subst hj
              refine Or.inr (Or.inr ⟨p, by simpa using hp, by omega, ?_⟩)
              rw [List.drop_succ_cons] at hf
              have harith : i + (p + 1) + 1 = i + 1 + p + 1 := by omega
              rw [harith] at hf
              exact hf

lemma tables_fst_mem (P : List Instruction) (j c : Nat) :
    (j, c) ∈ (buildLoop P 0 [] ([], [])).1 ↔
      P[j]? = some Instruction.While ∧ findClose (P.drop (j + 1)) (j + 1) 0 = some c := by
  rw [buildLoop_mem_fst]
  simp only [stackSpec, whileSpec]
  constructor
  · rintro (h | ⟨k, hk, -⟩ | ⟨p, hp, hj, hf⟩)
    · simp at h
    · simp at hk
    · subst hj
      simp only [Nat.zero_add] at hf ⊢
      exact ⟨hp, hf⟩
  · rintro ⟨hp, hf⟩
    refine Or.inr (Or.inr ⟨j, hp, by omega, ?_⟩)
    simpa using hf

lemma tables_snd_mem (P : List Instruction) (x y : Nat) :
    (x, y) ∈ (buildLoop P 0 [] ([], [])).2 ↔ (y, x) ∈ (buildLoop P 0 [] ([], [])).1 := by
  obtain ⟨ne, h1, h2⟩ := buildLoop_swap P 0 [] [] []
  rw [h1, h2]
  simp only [List.append_nil, List.mem_map]
  constructor
  · rintro ⟨⟨a, b⟩, hab, heq⟩
    simp only [Prod.swap_prod_mk, Prod.mk.injEq] at heq
    obtain ⟨rfl, rfl⟩ := heq
    exact hab
  · intro h
    exact ⟨(y, x), h, rfl⟩

/-- `C3`: after construction, `(j, c)` is in the open-to-close table exactly
when `j` is the position of a `While` in the program and `c` is the position
of its syntactically matching `WhileEnd` (the first close at the same nesting
depth, as computed by `findClose`); the close-to-open table is its exact
mirror; consequently every recorded close is a `WhileEnd` strictly to the
right of its open, and unmatched bracket positions appear in neither table
(construction itself is total and never raises an error). -/
theorem c3_jump_tables (P : List Instruction) (inp outp : List Nat) (j c x y : Nat) :
    ((j, c) ∈ (Machine.new P inp outp).open_to_close ↔
      P[j]? = some Instruction.While ∧ findClose (P.drop (j + 1)) (j + 1) 0 = some c) ∧
    ((x, y) ∈ (Machine.new P inp outp).close_to_open ↔
      (y, x) ∈ (Machine.new P inp outp).open_to_close) ∧
    ((j, c) ∈ (Machine.new P inp outp).open_to_close →
      P[c]? = some Instruction.WhileEnd ∧ j < c) := by
  have hopen : (Machine.new P inp outp).open_to_close = (buildLoop P 0 [] ([], [])).1 := rfl
  have hclose : (Machine.new P inp outp).close_to_open = (buildLoop P 0 [] ([], [])).2 := rfl
  refine ⟨by rw [hopen]; exact tables_fst_mem P j c,
          by rw [hopen, hclose]; exact tables_snd_mem P x y, ?_⟩
  intro h
  rw [hopen, tables_fst_mem] at h
  obtain ⟨-, hf⟩ := h
  have hle := findClose_le _ _ _ _ hf
  have hget := findClose_getElem _ _ _ _ hf
  rw [List.getElem?_drop] at hget
  constructor
  · have harith : j + 1 + (c - (j + 1)) = c := by omega
    rwa [harith] at hget
  · omega

theorem c3_jump_tables_witness :
    [Instruction.While, Instruction.WhileEnd][1]? = some Instruction.WhileEnd ∧ 0 < 1 :=
  (c3_jump_tables [Instruction.While, Instruction.WhileEnd] [] [] 0 1 0 0).2.2 (by decide)

lemma scan_while (rest : List Instruction) (d : Nat) :
    scanBalanced (Instruction.While :: rest) d = scanBalanced rest (d + 1) := by
  simp [scanBalanced]

lemma scan_whileEnd_zero (rest : List Instruction) :
    scanBalanced (Instruction.WhileEnd :: rest) 0 = false := by
  simp [scanBalanced]

lemma scan_whileEnd_succ (rest : List Instruction) (d : Nat) :
    scanBalanced (Instruction.WhileEnd :: rest) (d + 1) = scanBalanced rest d := by
  simp [scanBalanced]

lemma scan_other (ins : Instruction) (rest : List Instruction) (d : Nat)
    (h1 : ins ≠ Instruction.While) (h2 : ins ≠ Instruction.WhileEnd) :
    scanBalanced (ins :: rest) d = scanBalanced rest d := by
  simp [scanBalanced, h1, h2]

lemma scanBalanced_findClose :
    ∀ (l : List Instruction) (d i k : Nat), scanBalanced l d = true → k < d →
      (findClose l i k).isSome := by
  intro l
  induction l with
  | nil =>
    intro d i k hb hk
    simp [scanBalanced] at hb
    omega
  | cons ins rest ih =>
    intro d i k hb hk
    by_cases hw : ins = Instruction.While
    · subst hw
      rw [scan_while] at hb
      rw [findClose_while]
      exact ih (d + 1) (i + 1) (k + 1) hb (by omega)
    · by_cases he : ins = Instruction.WhileEnd
      · subst he
        cases d with
        | zero => omega
        | succ d =>
          rw [scan_whileEnd_succ] at hb
          cases k with
          | zero => rw [findClose_whileEnd_zero]; rfl
          | succ k =>
            rw [findClose_whileEnd_succ]
            exact ih d (i + 1) k hb (by omega)
      · rw [scan_other ins rest d hw he] at hb
        rw [findClose_other ins rest i k hw he]
        exact ih d (i + 1) k hb hk

lemma scanBalanced_while_matched :
    ∀ (l : List Instruction) (d p i : Nat), scanBalanced l d = true →
      l[p]? = some Instruction.While → (findClose (l.drop (p + 1)) i 0).isSome := by
  intro l
  induction l with
  | nil => intro d p i hb hp; simp at hp
  | cons ins rest ih =>
    intro d p i hb hp
    cases p with
    | zero =>
      simp only [List.getElem?_cons_zero, Option.some.injEq] at hp
      subst hp
      rw [scan_while] at hb
      simpa using scanBalanced_findClose rest (d + 1) i 0 hb (by omega)
    | succ p =>
      have hp' : rest[p]? = some Instruction.While := by simpa using hp
      rw [List.drop_succ_cons]
      by_cases hw : ins = Instruction.While
      · subst hw
        rw [scan_while] at hb
        exact ih (d + 1) p i hb hp'
      · by_cases he : ins = Instruction.WhileEnd
        · subst he
          cases d with
          | zero => rw [scan_whileEnd_zero] at hb; exact absurd hb (by simp)
          | succ d =>
            rw [scan_whileEnd_succ] at hb
            exact ih d p i hb hp'
        · rw [scan_other ins rest d hw he] at hb
          exact ih d p i hb hp'

lemma allZero_curCell (m : Machine) (h : allZero m) : curCell m = 0 := by
  unfold curCell
  rw [List.getD_eq_getElem?_getD]
  rcases hx : m.memory[m.data_ptr]? with _ | v
  · rfl
  · simpa using h v (List.getElem?_mem hx)

lemma step_progress_zero (W : Nat) (m : Machine)
    (hmov : movementOnly m.program)
    (hbal : scanBalanced m.program 0 = true)
    (htab : m.open_to_close = (buildLoop m.program 0 [] ([], [])).1)
    (hzero : allZero m)
    (hip : m.instruction_ptr < m.program.length) :
    ∃ m', step W m = .ok (false, m') ∧
      m.instruction_ptr < m'.instruction_ptr ∧
      m'.program = m.program ∧
      m'.open_to_close = m.open_to_close ∧
      allZero m' := by
  obtain ⟨ins, hg⟩ : ∃ ins, m.program[m.instruction_ptr]? = some ins :=
    ⟨_, List.getElem?_eq_getElem hip⟩
  have hmemP : ins ∈ m.program := List.getElem?_mem hg
  have hc : curCell m = 0 := allZero_curCell m hzero
  rcases hmov ins hmemP with h | h | h | h
  · subst h
    rcases hmm : m.memory[m.data_ptr + 1]? with _ | v
    · refine ⟨_, step_eq_moveRight_grow W m hg hmm, Nat.lt_succ_self _, rfl, rfl, ?_⟩
      intro x hx
      rcases List.mem_append.mp hx with h1 | h1
      · exact hzero x h1
      · exact List.mem_singleton.mp h1
    · exact ⟨_, step_eq_moveRight_in W m hg v hmm, Nat.lt_succ_self _, rfl, rfl, hzero⟩
  · subst h
    by_cases hd : m.data_ptr = 0
    · refine ⟨_, step_eq_moveLeft_zero W m hg hd, Nat.lt_succ_self _, rfl, rfl, ?_⟩
      intro x hx
      rcases List.mem_cons.mp hx with h1 | h1
      · exact h1
      · exact hzero x h1
    · exact ⟨_, step_eq_moveLeft_pos W m hg hd, Nat.lt_succ_self _, rfl, rfl, hzero⟩
  · subst h
    have hws : (findClose (m.program.drop (m.instruction_ptr + 1)) (m.instruction_ptr + 1) 0).isSome :=
      scanBalanced_while_matched m.program 0 m.instruction_ptr (m.instruction_ptr + 1) hbal hg
    obtain ⟨c0, hc0⟩ := Option.isSome_iff_exists.mp hws
    have hmem0 : (m.instruction_ptr, c0) ∈ m.open_to_close := by
      rw [htab, tables_fst_mem]
      exact ⟨hg, hc0⟩
    obtain ⟨c1, hc1⟩ := Option.isSome_iff_exists.mp (mem_assoc_isSome _ _ _ hmem0)
    have hmem1 := assoc_mem _ _ _ hc1
    rw [htab, tables_fst_mem] at hmem1
    have hlt : m.instruction_ptr + 1 ≤ c1 := findClose_le _ _ _ _ hmem1.2
    refine ⟨_, step_eq_while_zero_jump W m hg hc c1 hc1, ?_, rfl, rfl, hzero⟩
    show m.instruction_ptr < c1 + 1
    omega
  · subst h
    exact ⟨_, step_eq_whileEnd_zero W m hg hc, Nat.lt_succ_self _, rfl, rfl, hzero⟩

lemma run_term (W : Nat) :
    ∀ (fuel : Nat) (m : Machine), movementOnly m.program → scanBalanced m.program 0 = true →
      m.open_to_close = (buildLoop m.program 0 [] ([], [])).1 → allZero m →
      m.program.length ≤ m.instruction_ptr + fuel →
      ∃ t mf, runAux W (fuel + 1) m = some (.ok (t, mf)) := by
  intro fuel
  induction fuel with
  | zero =>
    intro m _ _ _ _ hlen
    exact ⟨1, m, runAux_succ_true W m 0 m (step_complete W m (by omega))⟩
  | succ fuel ih =>
    intro m hmov hbal htab hzero hlen
    by_cases hend : m.program.length ≤ m.instruction_ptr
    · exact ⟨1, m, runAux_succ_true W m _ m (step_complete W m hend)⟩
    · obtain ⟨m', hstep, hlt, hprog, htab', hzero'⟩ :=
        step_progress_zero W m hmov hbal htab hzero (by omega)
      obtain ⟨t, mf, hrun⟩ := ih m' (hprog ▸ hmov) (hprog ▸ hbal)
        (by rw [htab', htab, hprog]) hzero' (by rw [hprog]; omega)
      refine ⟨t + 1, mf, ?_⟩
      rw [runAux_succ_false W m _ m' hstep, hrun]
      rfl

lemma runAux_execCount (W : Nat) :
    ∀ (f : Nat) (m : Machine) (t : Nat) (mf : Machine),
      runAux W f m = some (.ok (t, mf)) → execCount W f m = some (t - 1) ∧ 1 ≤ t := by
  intro f
  induction f with
  | zero => intro m t mf h; simp [runAux] at h
  | succ f ih =>
    intro m t mf h
    rcases hs : step W m with e | ⟨b, m'⟩
    · rw [runAux_succ_error W m f e hs] at h; simp at h
    · cases b
      · rw [runAux_succ_false W m f m' hs] at h
        rcases ho : runAux W f m' with _ | r
        · rw [ho] at h; simp at h
        · rw [ho] at h
          simp only [Option.map_some', Option.some.injEq] at h
          rcases r with e' | ⟨t', mf'⟩
          · simp [Except.map] at h
          · simp only [Except.map, Except.ok.injEq, Prod.mk.injEq] at h
            obtain ⟨ht, -⟩ := h
            obtain ⟨hec, ht'⟩ := ih m' t' mf' ho
            rw [execCount_succ_false W m f m' hs, hec]
            constructor
            · simp only [Option.map_some', Option.some.injEq]
              omega
            · omega
      · rw [runAux_succ_true W m f m' hs] at h
        simp only [Option.some.injEq, Except.ok.injEq, Prod.mk.injEq] at h
        obtain ⟨ht, -⟩ := h
        rw [execCount_succ_true W m f m' hs]
        exact ⟨by rw [← ht], by omega⟩

/-- `C2` (amended): for every program of balanced brackets and data-movement
instructions only (no `Read`/`Write`), `run` terminates successfully; the
value it returns is the number of `step` invocations, which is the number of
instructions actually executed (the successful non-completion steps, counted
by `execCount`) plus one for the final completion-observing invocation, so
it is at least 1 and increases by one per step starting at 1. -/
theorem c2_run_step_count (W : Nat) (P : List Instruction) (inp outp : List Nat)
    (hmov : movementOnly P) (hbal : scanBalanced P 0 = true) :
    ∃ t mf e, runAux W (P.length + 1) (Machine.new P inp outp) = some (.ok (t, mf)) ∧
      execCount W (P.length + 1) (Machine.new P inp outp) = some e ∧ t = e + 1 := by
  have hz : allZero (Machine.new P inp outp) := by
    intro x hx
    simpa [Machine.new] using hx
  obtain ⟨t, mf, hrun⟩ := run_term W P.length (Machine.new P inp outp) hmov hbal rfl hz
    (by simp [Machine.new])
  obtain ⟨hexec, ht⟩ := runAux_execCount W _ _ t mf hrun
  exact ⟨t, mf, t - 1, hrun, hexec, by omega⟩

theorem c2_run_step_count_witness :
    ∃ t mf e, runAux 8 2 (Machine.new [Instruction.MoveRight] [] []) = some (.ok (t, mf)) ∧
      execCount 8 2 (Machine.new [Instruction.MoveRight] [] []) = some e ∧ t = e + 1 :=
  c2_run_step_count 8 [Instruction.MoveRight] [] [] (fun a ha => Or.inl (List.mem_singleton.mp ha)) (by decide)

/-- `C2` counterexample to the claim as stated: the one-instruction program
`>` (balanced brackets vacuously, data movement only) executes exactly one
instruction, yet `run` returns 2 — the returned count includes the final
completion-observing `step` call, so it is not equal to the number of
instructions actually executed. -/
theorem c2_counterexample :
    (runAux 8 2 (Machine.new [Instruction.MoveRight] [] [])).map (fun r => r.map (fun p => p.1))
      = some (.ok 2) ∧
    execCount 8 2 (Machine.new [Instruction.MoveRight] [] []) = some 1 ∧
    (2 : Nat) ≠ 1 :=
  ⟨rfl, rfl, by decide⟩
